import Mathlib

/-!
Verification of the HeartKit icentia11k dataset generators
(src/heartkit/datasets/icentia11k.py) against its design specification.

Shallow embedding conventions:
* sample indices and durations are integers (ℤ), label codes are ℕ;
* signal values are rationals (ℚ), standing for the floating-point samples
  (no claim below depends on float rounding of signal values);
* numpy arrays are lists; 2-D arrays are lists of rows;
* fallible code (IndexError, KeyError, ValueError) returns Option/none.
-/

/-! ### Label enumerations (icentia11k.py lines 31-97, defines.py lines 37-61)

IcentiaRhythm codes: noise=0, normal=1, afib=2, aflut=3, end=4, unknown=5.
IcentiaBeat codes: undefined=0, normal=1, pac=2, pvc=4 (aberrated=3 is
commented out in the source, so the enum has 4 members but its largest
value is 4).
HeartRhythm codes: normal=0, afib=1, aflut=2, noise=3.
HeartBeat codes: normal=0, pac=1, pvc=2, noise=3.
HeartRate codes: normal=0, tachycardia=1, bradycardia=2, noise=3.
-/

/-- IcentiaRhythm.hi_priority() = [afib, aflut] (source line 41). -/
def IcentiaRhythm_hi_priority : List ℕ := [2, 3]

/-- IcentiaRhythm.lo_priority() = [noise, normal, end, unknown] (source line 46). -/
def IcentiaRhythm_lo_priority : List ℕ := [0, 1, 4, 5]

/-- IcentiaBeat.hi_priority() = [pac, pvc] (source line 61). -/
def IcentiaBeat_hi_priority : List ℕ := [2, 4]

/-- IcentiaBeat.lo_priority() = [undefined, normal] (source line 66). -/
def IcentiaBeat_lo_priority : List ℕ := [0, 1]

/-- Number of members of the IcentiaBeat IntEnum: undefined, normal, pac, pvc
(aberrated is commented out), so len(IcentiaBeat) = 4 even though pvc = 4. -/
def lenIcentiaBeat : ℕ := 4

/-- HeartRhythmMap (source lines 84-89): a Python dict, hence a partial map;
noise→HeartRhythm.noise(3), normal→normal(0), afib→afib(1), aflut→afib(1).
Keys end(4) and unknown(5) are absent: looking them up raises KeyError. -/
def HeartRhythmMap : ℕ → Option ℕ
  | 0 => some 3
  | 1 => some 0
  | 2 => some 1
  | 3 => some 1
  | _ => none

/-- HeartBeatMap (source lines 91-97): undefined→HeartBeat.noise(3),
normal→normal(0), pac→pac(1), pvc→pvc(2); aberrated commented out. -/
def HeartBeatMap : ℕ → Option ℕ
  | 0 => some 3
  | 1 => some 0
  | 2 => some 1
  | 4 => some 2
  | _ => none

/-! ### np.argmax : index of the first occurrence of the maximum -/

/-- Scanning accumulator for argmaxIdx: next index, best index so far,
best value so far; a later element replaces the best only when strictly
greater, so ties go to the earliest index, as np.argmax does. -/
def argmaxAux {α : Type} [LinearOrder α] : List α → ℕ → ℕ → α → ℕ
  | [], _, bi, _ => bi
  | v :: vs, i, bi, bv => if bv < v then argmaxAux vs (i + 1) i v else argmaxAux vs (i + 1) bi bv

/-- np.argmax on a list: index of the first maximal element (0 on empty input,
where numpy would raise; never hit below). -/
def argmaxIdx {α : Type} [LinearOrder α] : List α → ℕ
  | [] => 0
  | v :: vs => argmaxAux vs 1 0 v

/-! ### _get_rhythm_label (source lines 632-654) -/

/-- durations[labels == r].sum(): total duration carried by rhythm code r.
The source materializes summed_durations as an array indexed by all six
codes; sumDur r is exactly its r-th entry. -/
def sumDur (durations : List ℤ) (labels : List ℕ) (r : ℕ) : ℤ :=
  (((durations.zip labels).filter (fun p => decide (p.2 = r))).map Prod.fst).sum

/-- _get_rhythm_label (source lines 632-654): argmax over high-priority sums,
mapped through HeartRhythmMap if positive, else argmax over low-priority
sums, mapped if positive, else the noise mapping. The dict lookup is
partial: none models the KeyError raised for codes end(4)/unknown(5). -/
def get_rhythm_label (durations : List ℤ) (labels : List ℕ) : Option ℕ :=
  let sd := sumDur durations labels
  let hiSums := IcentiaRhythm_hi_priority.map sd
  let longest_hp_rhythm := argmaxIdx hiSums
  if 0 < hiSums.getD longest_hp_rhythm 0 then
    HeartRhythmMap (IcentiaRhythm_hi_priority.getD longest_hp_rhythm 0)
  else
    let loSums := IcentiaRhythm_lo_priority.map sd
    let longest_lp_rhythm := argmaxIdx loSums
    if 0 < loSums.getD longest_lp_rhythm 0 then
      HeartRhythmMap (IcentiaRhythm_lo_priority.getD longest_lp_rhythm 0)
    else
      HeartRhythmMap 0

/-- Spec-side restatement of the (amended) rhythm-label rule, written from
the specification text with explicit first-maximum tie-breaking: the
high-priority code with the largest sum wins when its sum is positive;
otherwise the low-priority code with the largest positive sum is mapped
(the mapping having no entry for end/unknown); all-zero sums give noise. -/
def rhythm_label_spec (durations : List ℤ) (labels : List ℕ) : Option ℕ :=
  let sd := sumDur durations labels
  let hiWinner : ℕ := if sd 3 ≤ sd 2 then 2 else 3
  if 0 < sd hiWinner then HeartRhythmMap hiWinner
  else
    let loWinner : ℕ :=
      if sd 1 ≤ sd 0 ∧ sd 4 ≤ sd 0 ∧ sd 5 ≤ sd 0 then 0
      else if sd 4 ≤ sd 1 ∧ sd 5 ≤ sd 1 then 1
      else if sd 5 ≤ sd 4 then 4
      else 5
    if 0 < sd loWinner then HeartRhythmMap loWinner
    else HeartRhythmMap 0

/-! ### _get_beat_label (source lines 656-678) -/

/-- Length of np.bincount(labels, minlength): minlength for empty input,
otherwise max(minlength, max(labels)+1). -/
def bincountLen (labels : List ℕ) (minlength : ℕ) : ℕ :=
  match labels with
  | [] => minlength
  | _ => max minlength (labels.foldl max 0 + 1)

/-- np.bincount(labels, minlength): entry v is the number of occurrences
of v among the labels. -/
def bincount (labels : List ℕ) (minlength : ℕ) : List ℕ :=
  (List.range (bincountLen labels minlength)).map (fun v => labels.count v)

/-- numpy integer-array fancy indexing xs[idxs] (nonnegative indices):
raises IndexError (none) when any index is out of bounds. -/
def fancyIndex (xs : List ℕ) (idxs : List ℕ) : Option (List ℕ) :=
  if idxs.all (fun i => decide (i < xs.length)) then
    some (idxs.map (fun i => xs.getD i 0))
  else
    none

/-- _get_beat_label (source lines 656-678): bincount with
minlength = len(IcentiaBeat) = 4, argmax over the counts at the
high-priority codes [pac=2, pvc=4], preferred when positive, else argmax
over the low-priority codes [undefined=0, normal=1], else the undefined
mapping. none models the IndexError from beat_counts[[2, 4]] when the
bincount array is too short (pvc = 4 but minlength is only 4). -/
def get_beat_label (labels : List ℕ) : Option ℕ :=
  let beat_counts := bincount labels lenIcentiaBeat
  match fancyIndex beat_counts IcentiaBeat_hi_priority with
  | none => none
  | some hiCounts =>
    let max_hp_idx := argmaxIdx hiCounts
    if 0 < hiCounts.getD max_hp_idx 0 then
      HeartBeatMap (IcentiaBeat_hi_priority.getD max_hp_idx 0)
    else
      match fancyIndex beat_counts IcentiaBeat_lo_priority with
      | none => none
      | some loCounts =>
        let max_lp_idx := argmaxIdx loCounts
        if 0 < loCounts.getD max_lp_idx 0 then
          HeartBeatMap (IcentiaBeat_lo_priority.getD max_lp_idx 0)
        else
          HeartBeatMap 0

/-! ### _get_heart_rate_label (source lines 680-704) -/

/-- np.diff: successive differences. -/
def npDiff (l : List ℚ) : List ℚ :=
  (l.zip l.tail).map (fun p => p.2 - p.1)

/-- _get_heart_rate_label (source lines 680-704) on a list of QRS indices.
Return codes are HeartRate values: normal=0, tachycardia=1, bradycardia=2,
noise=3. Two branches reflect IEEE semantics of the float code: for a
single index the diff list is empty, its numpy mean is NaN, and both
bucket comparisons on NaN are false, so the code falls through to
tachycardia; for a zero mean interval 60/0.0 is +inf, likewise falling
through to tachycardia. -/
def get_heart_rate_label (qrs_indices : List ℚ) (fs : Option ℚ) : ℕ :=
  if qrs_indices = [] then 3
  else
    let rr0 := npDiff qrs_indices
    let rr_intervals := match fs with
      | none => rr0
      | some f => rr0.map (fun d => d / f)
    if rr_intervals = [] then 1
    else
      let m := rr_intervals.sum / (rr_intervals.length : ℚ)
      if m = 0 then 1
      else
        let bpm := 60 / m
        if bpm < 60 then 2
        else if bpm ≤ 100 then 0
        else 1

/-! ### get_complete_beats (source lines 602-630) -/

/-- np.searchsorted(xs, v, side=left) for a sorted list: the number of
elements strictly below v. -/
def searchsorted_left (xs : List ℤ) (v : ℤ) : ℕ :=
  xs.countP (fun x => decide (x < v))

/-- np.searchsorted(xs, v, side=right) for a sorted list: the number of
elements at or below v. -/
def searchsorted_right (xs : List ℤ) (v : ℤ) : ℕ :=
  xs.countP (fun x => decide (x ≤ v))

/-- Python slice l[a:b] for 0 ≤ a, b (empty when b ≤ a). -/
def pySlice {α : Type} (l : List α) (a b : ℕ) : List α :=
  (l.drop a).take (b - a)

/-- get_complete_beats (source lines 602-630) with an explicit end argument
(the end=None default, which substitutes the last index, is not exercised
by the claims). none models the ValueError (InvalidWindow) raised when
start ≥ end. The labels, when given, are sliced at the same positions as
the indices. -/
def get_complete_beats (indices : List ℤ) (labels : Option (List ℕ)) (start e : ℤ) :
    Option (List ℤ × Option (List ℕ)) :=
  if e ≤ start then none
  else
    let start_index := searchsorted_left indices start + 1
    let end_index := searchsorted_right indices e
    match labels with
    | none => some (pySlice indices start_index end_index, none)
    | some ls => some (pySlice indices start_index end_index, some (pySlice ls start_index end_index))

/-! ### samples_per_tgt derivation (source lines 258-262 and 352-356) -/

/-- Python list repetition n * l. -/
def pyListMul {α : Type} (n : ℕ) (l : List α) : List α :=
  (List.replicate n l).flatten

/-- The three rhythm target classes (source lines 253-257):
normal=1, afib=2, aflut=3. The beat generator likewise has three target
classes (normal, pac, pvc), so len(tgt_labels) = 3 in both generators. -/
def tgt_labels_len : ℕ := 3

/-- samples_per_tgt when samples_per_patient is a plain integer
(source lines 258-262, identical at 352-356):
num_per_tgt = int(max(1, samples_per_patient / 3));
samples_per_tgt = num_per_tgt * [len(tgt_labels)], i.e. the list [3]
repeated num_per_tgt times - note the operand order in the source. -/
def samples_per_tgt_of_int (samples_per_patient : ℕ) : List ℕ :=
  let num_per_tgt := max 1 (samples_per_patient / tgt_labels_len)
  pyListMul num_per_tgt [tgt_labels_len]

/-! ### rhythm_data_generator windowing (source lines 236-320) -/

/-- numpy strided slice a[0::2]: every other element starting at index 0.
a[1::2] is then everyOther l.tail. -/
def everyOther {α : Type} : List α → List α
  | [] => []
  | [a] => [a]
  | a :: _ :: rest => a :: everyOther rest

/-- Candidate (start, end) rhythm intervals of one segment for target class
tgt (source lines 271-284): drop noise-coded rows, read the remaining rows
pairwise as interval starts (even positions) and ends (odd positions)
labelled by the start row, and keep intervals at least frame_size long
whose label is tgt. (The even-interval invariant of the data model makes
the start and end columns equally long; zip realizes the pairing.) -/
def rhythmCandidates (frame_size : ℕ) (rlabels : List (ℤ × ℕ)) (tgt : ℕ) : List (ℤ × ℤ) :=
  let rl := rlabels.filter (fun p => decide (p.2 ≠ 0))
  let starts := everyOther rl
  let ends := everyOther rl.tail
  (starts.zip ends).filterMap (fun q =>
    if (frame_size : ℤ) ≤ q.2.1 - q.1.1 ∧ q.1.2 = tgt then some (q.1.1, q.2.1) else none)

/-! ### beat_data_generator windowing (source lines 422-463) -/

/-- The three context slices extracted for one beat sample
(source lines 450-459): each pair is (slice start, slice end) into the
segment signal; slice ends always sit frame_size after their starts. -/
def beatFrameSlices (frame_size : ℕ) (frame_start avg_rr : ℤ) : List (ℤ × ℤ) :=
  [(frame_start - avg_rr, frame_start - avg_rr + frame_size),
   (frame_start, frame_start + frame_size),
   (frame_start + avg_rr, frame_start + avg_rr + frame_size)]

/-- The bounds check guarding the emission of a beat sample
(source lines 444-448): the candidate is kept only when
frame_start - avg_rr ≥ 0 and frame_end + avg_rr < segment length. -/
def beatFrameOk (frame_size : ℕ) (datalen frame_start avg_rr : ℤ) : Bool :=
  !(decide (frame_start - avg_rr < 0) || decide (datalen ≤ frame_start + frame_size + avg_rr))

/-! ### heart_rate_data_generator / signal_generator windowing
(source lines 467-507 and 509-531) -/

/-- Signal window of the heart-rate generator (source lines 485-496), as a
function of the random draw d = np.random.randint(segment_size -
max_frame_size): label_frame_size equals frame_size, so max_frame_size
does too; the frame center is d + max_frame_size / 2 and the window runs
from center - frame_size / 2 to center + frame_size / 2. -/
def hr_signal_frame (frame_size d : ℕ) : ℕ × ℕ :=
  let label_frame_size := frame_size
  let max_frame_size := max frame_size label_frame_size
  let frame_center := d + max_frame_size / 2
  (frame_center - frame_size / 2, frame_center + frame_size / 2)

/-- Signal window of the plain signal generator (source lines 522-528):
frame_start is the random draw d = np.random.randint(segment_size -
frame_size) and the window is [d, d + frame_size). -/
def signal_frame (frame_size d : ℕ) : ℕ × ℕ :=
  (d, d + frame_size)

/-! ### beat candidate selection (source lines 362-399) -/

/-- Padding of 20 beat markers excluded at each end of a segment
(source line 342). -/
def blabel_padding : ℕ := 20

/-- Python slice blabels[20:-20]. -/
def midSlice {α : Type} (bl : List α) : List α :=
  (bl.drop blabel_padding).take (bl.length - 2 * blabel_padding)

/-- beat_idxs for one class (source lines 377-382):
np.where(blabels[20:-20][:,1] == beat)[0] + 20, i.e. the absolute
positions, away from both segment ends, whose beat code equals beat. -/
def beatIdxs (blabels : List (ℤ × ℕ)) (beat : ℕ) : List ℕ :=
  ((List.range (midSlice blabels).length).filter
    (fun i => decide (((midSlice blabels).getD i (0, 0)).2 = beat))).map (· + blabel_padding)

/-- Positions kept as normal-class candidates (source lines 385-392): a
normal-coded position qualifies only when its immediate neighbours carry
equal codes that are normal (the chained comparison
blabels[i-1,1] == blabels[i+1,1] == IcentiaBeat.normal). -/
def normalCandidatePositions (blabels : List (ℤ × ℕ)) : List ℕ :=
  (beatIdxs blabels 1).filter (fun i =>
    decide ((blabels.getD (i - 1) (0, 0)).2 = (blabels.getD (i + 1) (0, 0)).2
      ∧ (blabels.getD (i + 1) (0, 0)).2 = 1))

/-- The normal-class entries added to pt_beat_map for one segment
(source lines 386-392): pairs (segment index, beat sample index). -/
def normalBeatCandidates (seg_idx : ℕ) (blabels : List (ℤ × ℕ)) : List (ℕ × ℤ) :=
  (normalCandidatePositions blabels).map (fun i => (seg_idx, (blabels.getD i (0, 0)).1))

/-! ### the assembled three-window beat frame (source lines 450-461) -/

/-- 2-D slice data[s:e] over the rows (time axis) of a 2-D signal. -/
def slice2d (a : List (List ℚ)) (s e : ℕ) : List (List ℚ) :=
  (a.drop s).take (e - s)

/-- np.hstack on two 2-D arrays: rows are joined along axis 1 (columns). -/
def hstack2 (a b : List (List ℚ)) : List (List ℚ) :=
  (a.zip b).map (fun p => p.1 ++ p.2)

/-- The sample window assembled for one beat (source lines 450-460):
np.hstack of the avg_rr-early slice, the centered slice and the
avg_rr-late slice of the 2-D segment signal. (np.nan_to_num only replaces
non-finite values and does not change the shape; ℚ has none.) -/
def beatWindow (data : List (List ℚ)) (frame_size frame_start avg_rr : ℕ) : List (List ℚ) :=
  hstack2
    (hstack2
      (slice2d data (frame_start - avg_rr) (frame_start - avg_rr + frame_size))
      (slice2d data frame_start (frame_start + frame_size)))
    (slice2d data (frame_start + avg_rr) (frame_start + avg_rr + frame_size))

/-! ### avg_rr computation (source lines 429-442) -/

/-- rr_min_len = int(0.6 * sampling_rate) at the fixed 250 Hz dataset rate
(source lines 343-345, sampling_rate property line 115). -/
def rr_min_len : ℕ := 150

/-- rr_max_len = int(2.0 * sampling_rate) at 250 Hz. -/
def rr_max_len : ℕ := 500

/-- The validation predicate on one RR interval (source lines 436-439):
strictly between rr_min_len and rr_max_len samples. -/
def validDiff (d : ℤ) : Bool :=
  decide ((rr_min_len : ℤ) < d) && decide (d < (rr_max_len : ℤ))

/-- idxs = np.where((diffs > rr_min_len) & (diffs < rr_max_len))[0]
(source lines 436-439): positions of the validated RR intervals. -/
def validatedIdxs (diffs : List ℤ) : List ℕ :=
  (List.range diffs.length).filter (fun i => validDiff (diffs.getD i 0))

/-- Truncation of a rational toward zero: Python int() on a float. -/
def ratTrunc (q : ℚ) : ℤ :=
  if 0 ≤ q then ⌊q⌋ else ⌈q⌉

/-- avg_rr = int(np.mean(blabel_diffs[:, 0])) (source line 442): the mean
is taken over ALL inter-beat differences in the lookback window, not only
the validated ones. -/
def avg_rr_of (diffs : List ℤ) : ℤ :=
  ratTrunc ((diffs.sum : ℚ) / (diffs.length : ℚ))

/-- The mean RR interval among validated neighbours only - this is what
the specification text prescribes for avg_rr. -/
def validated_mean (diffs : List ℤ) : ℚ :=
  let v := diffs.filter validDiff
  ((v.sum : ℚ)) / ((v.length : ℚ))

/-! ### Concrete data used by witnesses and counterexamples -/

/-- A 7-row, 1-channel signal used to exercise beatWindow concretely. -/
def c7_data : List (List ℚ) := [[0], [1], [2], [3], [4], [5], [6]]

/-- A 41-marker beat-label table, all coded normal, used to exercise the
normal-candidate selection concretely (positions 0..40, codes all 1). -/
def c9_blabels : List (ℤ × ℕ) := (List.range 41).map (fun k => ((k : ℤ), 1))

/-! ## Theorems -/

/-- Claim C2 (code bug): for integer samples_per_patient the source builds
num_per_tgt * [len(tgt_labels)], a list of max(1, n/3) copies of the
constant 3, instead of one entry per target class each equal to
max(1, n/3). At n = 1 the allocation is [3] (one entry, value 3), not
[1, 1, 1]; at n = 12 it is [3, 3, 3, 3] (four entries). -/
theorem c2_samples_per_tgt_bug :
    samples_per_tgt_of_int 1 = [3] ∧ samples_per_tgt_of_int 1 ≠ [1, 1, 1]
      ∧ samples_per_tgt_of_int 12 = [3, 3, 3, 3] := by
  decide

/-- Claim C4 (code bug): a single QRS index is not caught by the emptiness
test, the diff list is empty, its mean is NaN and both bucket comparisons
fail, so the code returns tachycardia (1) where the claim requires noise
(3). The empty input does return noise, and the claim's worked example
[0, 250, 500] at 250 Hz returns normal (0). -/
theorem c4_heart_rate_single_beat :
    get_heart_rate_label [100] (some 250) = 1
      ∧ get_heart_rate_label [] (some 250) = 3
      ∧ get_heart_rate_label [0, 250, 500] (some 250) = 0
      ∧ get_heart_rate_label [0, 375, 750] (some 250) = 2 := by
  refine ⟨by rfl, by rfl, ?_, ?_⟩
  · norm_num [get_heart_rate_label, npDiff]
    simp
  · norm_num [get_heart_rate_label, npDiff]
    simp

set_option maxRecDepth 4000 in
/-- Claim C6 (code bug): with 100 normal beats and one pac beat (and no
pvc), np.bincount with minlength = len(IcentiaBeat) = 4 yields a length-4
array, and fancy-indexing it at pvc = 4 raises IndexError (none) instead
of returning the pac-mapped label. -/
theorem c6_beat_label_bincount_crash :
    get_beat_label (List.replicate 100 1 ++ [2]) = none := by
  decide

/-- Claim C5 counterexample: when the low-priority winner is the code
end (4) - durations [0,0,0,0,50,0] against codes [0..5] - the source
looks up HeartRhythmMap[end], a missing dict key, and raises KeyError
(none) instead of returning a mapped label. -/
theorem c5_counterexample :
    get_rhythm_label [0, 0, 0, 0, 50, 0] [0, 1, 2, 3, 4, 5] = none := by
  decide

/-- Claim C3 counterexample: on sorted indices [5, 20] with window (0, 20)
the code returns [20] - it drops the beat at 5, which lies strictly
inside the window, and keeps the beat at 20, which equals window_end -
while the strictly-inside subsequence is [5]. -/
theorem c3_counterexample :
    get_complete_beats [5, 20] none 0 20 = some ([20], none)
      ∧ ([5, 20] : List ℤ).filter (fun x => decide (0 < x) && decide (x < 20)) = [5] := by
  decide

/-- Claim C7 counterexample: on a 7-sample single-channel segment with
frame_size 2, frame_start 2 and avg_rr 2 (a candidate that passes the
bounds check), the assembled window has 2 rows (time samples), not
3 x frame_size = 6: np.hstack joins the three slices along the channel
axis of the 2-D signal, not the time axis. -/
theorem c7_counterexample :
    beatFrameOk 2 7 2 2 = true
      ∧ beatWindow c7_data 2 2 2 = [[0, 2, 4], [1, 3, 5]]
      ∧ (beatWindow c7_data 2 2 2).length ≠ 3 * 2 := by
  decide

/-- Claim C8 counterexample: with in-window inter-beat differences
[200, 10000] the candidate is not skipped (the 200-sample interval
validates), yet the source shift avg_rr = int(mean of ALL differences)
= 5100, while the mean over validated differences prescribed by the
claim is 200. -/
theorem c8_counterexample :
    validatedIdxs [200, 10000] = [0]
      ∧ avg_rr_of [200, 10000] = 5100
      ∧ validated_mean [200, 10000] = 200
      ∧ ((avg_rr_of [200, 10000] : ℚ)) ≠ validated_mean [200, 10000] := by
  have h1 : avg_rr_of [200, 10000] = 5100 := by
    norm_num [avg_rr_of, ratTrunc]
  have h2 : validated_mean [200, 10000] = 200 := by
    norm_num [validated_mean, validDiff, rr_min_len, rr_max_len]
  refine ⟨by decide, h1, h2, ?_⟩
  rw [h1, h2]
  norm_num

/-! ### Helper lemmas -/

/-- On a two-element list, np.argmax picks the first element unless the
second is strictly greater. -/
lemma argmax2 {α : Type} [LinearOrder α] (a b : α) :
    argmaxIdx [a, b] = if b ≤ a then 0 else 1 := by
  simp only [argmaxIdx, argmaxAux]
  rcases le_or_lt b a with h | h
  · rw [if_neg (not_lt.mpr h), if_pos h]
  · rw [if_pos h, if_neg (not_le.mpr h)]

/-- On a four-element list, np.argmax is the first index whose value is at
least every later value. -/
lemma argmax4 (a b c d : ℤ) :
    argmaxIdx [a, b, c, d] =
      if b ≤ a ∧ c ≤ a ∧ d ≤ a then 0
      else if c ≤ b ∧ d ≤ b then 1
      else if d ≤ c then 2
      else 3 := by
  simp only [argmaxIdx, argmaxAux]
  split_ifs <;> omega

/-- The fold of max over a list dominates its accumulator. -/
lemma le_foldl_max (l : List ℕ) (acc : ℕ) : acc ≤ l.foldl max acc := by
  induction l generalizing acc with
  | nil => simp
  | cons x t ih => exact le_trans (le_max_left acc x) (ih (max acc x))

/-- The fold of max over a list dominates every member. -/
lemma mem_le_foldl_max {a : ℕ} {l : List ℕ} (h : a ∈ l) (acc : ℕ) : a ≤ l.foldl max acc := by
  induction l generalizing acc with
  | nil => simp at h
  | cons x t ih =>
    rcases List.mem_cons.mp h with rfl | h
    · exact le_trans (le_max_right acc a) (le_foldl_max t (max acc a))
    · exact ih h (max acc x)

/-- bincount has bincountLen entries. -/
lemma length_bincount (labels : List ℕ) (ml : ℕ) :
    (bincount labels ml).length = bincountLen labels ml := by
  simp [bincount]

/-- Within bounds, entry v of bincount is the multiplicity of v. -/
lemma bincount_getD (labels : List ℕ) (ml v : ℕ) (h : v < bincountLen labels ml) :
    (bincount labels ml).getD v 0 = labels.count v := by
  have hlen : v < (bincount labels ml).length := by simpa [length_bincount]
  rw [List.getD_eq_getElem _ _ hlen]
  simp [bincount]

/-- When the value 4 (pvc) occurs among the labels, the bincount array is
long enough to index position 4. -/
lemma bincountLen_of_mem4 {labels : List ℕ} (h : 4 ∈ labels) :
    5 ≤ bincountLen labels lenIcentiaBeat := by
  have h4 : 4 ≤ labels.foldl max 0 := mem_le_foldl_max h 0
  cases labels with
  | nil => simp at h
  | cons x t =>
    simp only [bincountLen, lenIcentiaBeat]
    omega

/-- Reading the middle slice blabels[20:-20] at position j reads the
original list at position j + 20. -/
lemma midSlice_getElem? {α : Type} (bl : List α) (j : ℕ) (hj : j < (midSlice bl).length) :
    (midSlice bl)[j]? = bl[j + blabel_padding]? := by
  have hjlt : j < bl.length - 2 * blabel_padding := by
    have := hj
    simp only [midSlice, List.length_take, List.length_drop] at this
    omega
  simp only [midSlice]
  rw [List.getElem?_take_of_lt hjlt, List.getElem?_drop]
  congr 1
  omega

/-- A position produced by beat_idxs lies at least blabel_padding markers
into the segment and carries the requested beat code. -/
lemma beatIdxs_mem {blabels : List (ℤ × ℕ)} {beat : ℕ} {i : ℕ}
    (h : i ∈ beatIdxs blabels beat) :
    blabel_padding ≤ i ∧ (blabels.getD i (0, 0)).2 = beat := by
  simp only [beatIdxs, List.mem_map, List.mem_filter, List.mem_range] at h
  obtain ⟨j, ⟨hjlt, hjp⟩, rfl⟩ := h
  have hp := of_decide_eq_true hjp
  constructor
  · omega
  · have hg : (midSlice blabels).getD j (0, 0) = blabels.getD (j + blabel_padding) (0, 0) := by
      rw [List.getD_eq_getElem?_getD, List.getD_eq_getElem?_getD, midSlice_getElem? blabels j hjlt]
    rw [← hg]
    exact hp

/-- Every member of the even-position sublist is a member of the list. -/
lemma mem_everyOther {α : Type} : ∀ (l : List α) (a : α), a ∈ everyOther l → a ∈ l
  | [], _, h => h
  | [_], _, h => h
  | x :: y :: rest, a, h => by
    simp only [everyOther, List.mem_cons] at h ⊢
    rcases h with h | h
    · exact Or.inl h
    · exact Or.inr (Or.inr (mem_everyOther rest a h))

/-- For a non-decreasing list, keeping the elements at most e is taking the
first countP-many of them. -/
lemma sorted_filter_le (l : List ℤ) (hl : l.Sorted (· ≤ ·)) (e : ℤ) :
    l.filter (fun x => decide (x ≤ e)) = l.take (l.countP (fun x => decide (x ≤ e))) := by
  induction l with
  | nil => simp
  | cons a t ih =>
    rw [List.sorted_cons] at hl
    obtain ⟨ha, ht⟩ := hl
    simp only [List.filter_cons, List.countP_cons, decide_eq_true_eq]
    by_cases hae : a ≤ e
    · rw [if_pos hae, if_pos hae, List.take_succ_cons, ih ht]
    · have hall : ∀ x ∈ t, ¬((fun x => decide (x ≤ e)) x = true) := by
        intro x hx
        simp only [decide_eq_true_eq]
        have := ha x hx
        omega
      rw [if_neg hae, if_neg hae, List.filter_eq_nil_iff.mpr hall,
        List.countP_eq_zero.mpr hall]
      simp

/-- Slice characterization of get_complete_beats on a sorted index list:
the window slice [countP(< s) + 1 : countP(≤ e)] is the in-window
subsequence [s, e] with its first element removed. -/
lemma slice_eq_filter (l : List ℤ) (hl : l.Sorted (· ≤ ·)) (s e : ℤ) (hse : s < e) :
    pySlice l (l.countP (fun x => decide (x < s)) + 1) (l.countP (fun x => decide (x ≤ e)))
      = (l.filter (fun x => decide (s ≤ x) && decide (x ≤ e))).drop 1 := by
  induction l with
  | nil => simp [pySlice]
  | cons a t ih =>
    rw [List.sorted_cons] at hl
    obtain ⟨ha, ht⟩ := hl
    simp only [List.countP_cons, List.filter_cons, Bool.and_eq_true, decide_eq_true_eq]
    by_cases has : a < s
    · have hae : a ≤ e := by omega
      rw [if_pos has, if_pos hae, if_neg (by omega : ¬(s ≤ a ∧ a ≤ e))]
      have harith : ∀ c2 c1 : ℕ, c2 + 1 - (c1 + 1 + 1) = c2 - (c1 + 1) := by omega
      simp only [pySlice, List.drop_succ_cons, harith]
      exact ih ht
    · have hsa : s ≤ a := by omega
      have hz : t.countP (fun x => decide (x < s)) = 0 := by
        apply List.countP_eq_zero.mpr
        intro x hx
        simp only [decide_eq_true_eq]
        have := ha x hx
        omega
      rw [if_neg has, hz]
      by_cases hae : a ≤ e
      · rw [if_pos hae, if_pos ⟨hsa, hae⟩]
        simp only [pySlice, Nat.zero_add, List.drop_succ_cons, List.drop_zero,
          Nat.add_sub_cancel]
        have hfc : t.filter (fun x => decide (s ≤ x) && decide (x ≤ e))
            = t.filter (fun x => decide (x ≤ e)) := by
          apply List.filter_congr
          intro x hx
          have hsx : decide (s ≤ x) = true := decide_eq_true (le_trans hsa (ha x hx))
          rw [hsx, Bool.true_and]
        rw [hfc, sorted_filter_le t ht e]
      · have hze : t.countP (fun x => decide (x ≤ e)) = 0 := by
          apply List.countP_eq_zero.mpr
          intro x hx
          simp only [decide_eq_true_eq]
          have := ha x hx
          omega
        rw [if_neg hae, hze, if_neg (by omega : ¬(s ≤ a ∧ a ≤ e))]
        have hfe : t.filter (fun x => decide (s ≤ x) && decide (x ≤ e)) = [] := by
          apply List.filter_eq_nil_iff.mpr
          intro x hx
          have := ha x hx
          simp only [Bool.and_eq_true, decide_eq_true_eq]
          omega
        rw [hfe]
        simp [pySlice]

/-- Row slices of a 2-D signal have the requested number of rows when the
slice stays within bounds. -/
lemma length_slice2d (a : List (List ℚ)) (s n : ℕ) (h : s + n ≤ a.length) :
    (slice2d a s (s + n)).length = n := by
  simp only [slice2d, List.length_take, List.length_drop, Nat.add_sub_cancel_left]
  omega

/-- Rows of a slice are rows of the sliced signal. -/
lemma mem_slice2d {a : List (List ℚ)} {s e : ℕ} {row : List ℚ} (h : row ∈ slice2d a s e) :
    row ∈ a :=
  List.drop_subset s a (List.mem_of_mem_take h)

/-- Row count of a horizontal stack. -/
lemma length_hstack2 (a b : List (List ℚ)) :
    (hstack2 a b).length = min a.length b.length := by
  simp [hstack2]

/-- Every row of a horizontal stack is the concatenation of a row of each
argument. -/
lemma mem_hstack2 {a b : List (List ℚ)} {row : List ℚ} (h : row ∈ hstack2 a b) :
    ∃ r1 ∈ a, ∃ r2 ∈ b, row = r1 ++ r2 := by
  simp only [hstack2, List.mem_map] at h
  obtain ⟨⟨r1, r2⟩, hp, rfl⟩ := h
  have hm := List.of_mem_zip hp
  exact ⟨r1, hm.1, r2, hm.2, rfl⟩

/-! ### Claim theorems -/

/-- Claim C1 (confirmed): every window produced by the four sample
generators satisfies 0 ≤ start and start + width ≤ segment length.
Conjunct 1 (rhythm generator): any candidate interval (xs, xe) together
with any legal draw r of np.random.randint(xs, xe - frame_size + 1)
gives a window [r, r + frame_size) inside the segment, provided the
rhythm-label sample indices index into the segment (the data-model
invariant). Conjunct 2 (beat generator): when the emission bounds check
passes and avg_rr ≥ 0 (inter-beat differences of a sorted marker table),
each of the three context slices lies inside the segment and is
frame_size wide. Conjunct 3 (heart-rate generator) and conjunct 4 (plain
signal generator): any legal draw d of the respective
np.random.randint(segment_size - frame) keeps the window inside the
segment. -/
theorem c1_generator_window_bounds (frame_size : ℕ) :
    (∀ (seglen : ℤ) (rlabels : List (ℤ × ℕ)) (tgt : ℕ) (se : ℤ × ℤ) (r : ℤ),
        (∀ p ∈ rlabels, 0 ≤ p.1 ∧ p.1 ≤ seglen) →
        se ∈ rhythmCandidates frame_size rlabels tgt →
        se.1 ≤ r → r ≤ se.2 - (frame_size : ℤ) →
        0 ≤ r ∧ r + (frame_size : ℤ) ≤ seglen)
    ∧ (∀ (datalen frame_start avg_rr : ℤ),
        0 ≤ avg_rr →
        beatFrameOk frame_size datalen frame_start avg_rr = true →
        ∀ sl ∈ beatFrameSlices frame_size frame_start avg_rr,
          0 ≤ sl.1 ∧ sl.2 = sl.1 + (frame_size : ℤ) ∧ sl.1 + (frame_size : ℤ) ≤ datalen)
    ∧ (∀ (segment_size d : ℕ),
        d + frame_size < segment_size →
        (hr_signal_frame frame_size d).1 = d
          ∧ (hr_signal_frame frame_size d).2 ≤ segment_size)
    ∧ (∀ (segment_size d : ℕ),
        d + frame_size < segment_size →
        (signal_frame frame_size d).1 = d ∧ (signal_frame frame_size d).2 ≤ segment_size) := by
  refine ⟨?_, ?_, ?_, ?_⟩
  · intro seglen rlabels tgt se r hinv hmem hr1 hr2
    simp only [rhythmCandidates, List.mem_filterMap] at hmem
    obtain ⟨q, hq, hf⟩ := hmem
    have hcond : (frame_size : ℤ) ≤ q.2.1 - q.1.1 ∧ q.1.2 = tgt := by
      by_contra hc
      rw [if_neg hc] at hf
      exact Option.noConfusion hf
    rw [if_pos hcond] at hf
    obtain ⟨hq1, hq2⟩ := List.of_mem_zip (show (q.1, q.2) ∈ _ from hq)
    have hm1 : q.1 ∈ rlabels :=
      List.mem_of_mem_filter (mem_everyOther _ _ hq1)
    have hm2 : q.2 ∈ rlabels :=
      List.mem_of_mem_filter (List.mem_of_mem_tail (mem_everyOther _ _ hq2))
    have hb1 := hinv q.1 hm1
    have hb2 := hinv q.2 hm2
    have hse : se = (q.1.1, q.2.1) := by
      cases hf
      rfl
    rw [hse] at hr1 hr2
    simp only at hr1 hr2
    constructor
    · linarith [hb1.1]
    · linarith [hb2.2]
  · intro datalen frame_start avg_rr havg hok sl hsl
    simp only [beatFrameOk, Bool.not_eq_eq_eq_not, Bool.not_true, Bool.or_eq_false_iff,
      decide_eq_false_iff_not, not_lt, not_le] at hok
    simp only [beatFrameSlices, List.mem_cons, List.mem_singleton] at hsl
    rcases hsl with rfl | rfl | rfl | h
    · refine ⟨by omega, by simp, by omega⟩
    · refine ⟨by omega, by simp, by omega⟩
    · refine ⟨by omega, by simp, by omega⟩
    · simp at h
  · intro segment_size d hd
    simp only [hr_signal_frame]
    omega
  · intro segment_size d hd
    refine ⟨rfl, ?_⟩
    simp only [signal_frame]
    omega

/-- Claim C1 witness: the theorem instantiated at frame_size 5 with
concrete segments and draws for each of the four generators. -/
theorem c1_generator_window_bounds_witness :
    (0 ≤ (12 : ℤ) ∧ (12 : ℤ) + ((5 : ℕ) : ℤ) ≤ 100)
      ∧ (0 ≤ (7 : ℤ) ∧ (12 : ℤ) = 7 + ((5 : ℕ) : ℤ) ∧ (7 : ℤ) + ((5 : ℕ) : ℤ) ≤ 100)
      ∧ ((hr_signal_frame 5 3).1 = 3 ∧ (hr_signal_frame 5 3).2 ≤ 20)
      ∧ ((signal_frame 5 3).1 = 3 ∧ (signal_frame 5 3).2 ≤ 20) := by
  refine ⟨?_, ?_, ?_, ?_⟩
  · exact (c1_generator_window_bounds 5).1 100 [(10, 2), (40, 2)] 2 (10, 40) 12
      (by decide) (by decide) (by decide) (by decide)
  · exact (c1_generator_window_bounds 5).2.1 100 10 3 (by decide) (by decide)
      ((7 : ℤ), (12 : ℤ)) (by decide)
  · exact (c1_generator_window_bounds 5).2.2.1 20 3 (by decide)
  · exact (c1_generator_window_bounds 5).2.2.2 20 3 (by decide)

/-- Claim C3 (corrected): on a sorted index list, get_complete_beats fails
(InvalidWindow) exactly when start ≥ end; otherwise it returns the
subsequence of indices in the closed interval [start, end] with its first
element removed - the first marker at or after window start is always
dropped, and markers equal to window end are kept. -/
theorem c3_complete_beats_amended (indices : List ℤ) (hs : indices.Sorted (· ≤ ·)) (s e : ℤ) :
    (e ≤ s → get_complete_beats indices none s e = none)
      ∧ (s < e → get_complete_beats indices none s e =
          some ((indices.filter (fun x => decide (s ≤ x) && decide (x ≤ e))).drop 1, none)) := by
  constructor
  · intro h
    simp [get_complete_beats, h]
  · intro h
    rw [get_complete_beats, if_neg (by omega : ¬ e ≤ s)]
    simp only [searchsorted_left, searchsorted_right]
    rw [slice_eq_filter indices hs s e h]

/-- Claim C3 witness: the amended theorem instantiated on the sorted
indices [5, 10, 20] with window (0, 20): the in-window subsequence is
[5, 10, 20] and the code keeps its tail [10, 20]. -/
theorem c3_complete_beats_witness :
    get_complete_beats [5, 10, 20] none 0 20 = some ([10, 20], none) := by
  have h := (c3_complete_beats_amended [5, 10, 20] (by decide) 0 20).2 (by decide)
  rw [h]
  decide

/-- Claim C5 (corrected): _get_rhythm_label agrees everywhere with the
spec-side rule amended for partiality: the high-priority code (afib
before aflut on ties) with the largest summed duration is mapped when its
sum is positive; otherwise the low-priority winner is mapped when its sum
is positive, which raises KeyError (none) for the unmapped codes
end/unknown; all-zero sums give the noise mapping. -/
theorem c5_rhythm_label_amended (durations : List ℤ) (labels : List ℕ) :
    get_rhythm_label durations labels = rhythm_label_spec durations labels := by
  unfold get_rhythm_label rhythm_label_spec
  simp only [IcentiaRhythm_hi_priority, IcentiaRhythm_lo_priority, List.map_cons, List.map_nil,
    argmax2, argmax4]
  set s0 := sumDur durations labels 0 with h0
  set s1 := sumDur durations labels 1 with h1
  set s2 := sumDur durations labels 2 with h2
  set s3 := sumDur durations labels 3 with h3
  set s4 := sumDur durations labels 4 with h4
  set s5 := sumDur durations labels 5 with h5
  split_ifs <;> simp_all [List.getD]

/-- Claim C7 (corrected): whenever the rows of the segment signal all have
ch channels and the candidate passes the bounds check (avg_rr ≤
frame_start and frame_start + frame_size + avg_rr < segment length), the
assembled beat window has frame_size rows and 3·ch columns - the three
equal-length windows are concatenated along the channel axis, not the
time axis. -/
theorem c7_beat_window_amended (data : List (List ℚ)) (ch fsz fs avg : ℕ)
    (hch : ∀ row ∈ data, row.length = ch)
    (h1 : avg ≤ fs) (h2 : fs + fsz + avg < data.length) :
    (beatWindow data fsz fs avg).length = fsz
      ∧ ∀ row ∈ beatWindow data fsz fs avg, row.length = 3 * ch := by
  have hl1 : (slice2d data (fs - avg) (fs - avg + fsz)).length = fsz :=
    length_slice2d data (fs - avg) fsz (by omega)
  have hl2 : (slice2d data fs (fs + fsz)).length = fsz :=
    length_slice2d data fs fsz (by omega)
  have hl3 : (slice2d data (fs + avg) (fs + avg + fsz)).length = fsz :=
    length_slice2d data (fs + avg) fsz (by omega)
  constructor
  · simp [beatWindow, length_hstack2, hl1, hl2, hl3]
  · intro row hrow
    obtain ⟨r12, hr12, r3, hr3, rfl⟩ := mem_hstack2 hrow
    obtain ⟨r1, hr1, r2, hr2, rfl⟩ := mem_hstack2 hr12
    rw [List.length_append, List.length_append,
      hch r1 (mem_slice2d hr1), hch r2 (mem_slice2d hr2), hch r3 (mem_slice2d hr3)]
    omega

/-- Claim C7 witness: the amended theorem instantiated on the concrete
7-sample single-channel segment: 2 rows, and the row [0, 2, 4] of the
window has 3·1 entries. -/
theorem c7_beat_window_witness :
    (beatWindow c7_data 2 2 2).length = 2 ∧ (([0, 2, 4] : List ℚ)).length = 3 * 1 := by
  have h := c7_beat_window_amended c7_data 1 2 2 2 (by decide) (by decide) (by decide)
  exact ⟨h.1, h.2 [0, 2, 4] (by decide)⟩

/-- Claim C8 (corrected): the shift avg_rr is the truncated mean of ALL
inter-beat differences in the lookback window - it depends only on their
sum and count, not on which of them validate (equal sums and counts give
equal avg_rr) - while the 0.6-2.0 s validation solely decides the skip:
the validated index list is empty exactly when no difference lies
strictly between rr_min_len and rr_max_len. -/
theorem c8_avg_rr_amended (diffs d2 : List ℤ) (hsum : diffs.sum = d2.sum)
    (hlen : diffs.length = d2.length) :
    avg_rr_of diffs = avg_rr_of d2
      ∧ (validatedIdxs diffs = [] ↔ ∀ d ∈ diffs, validDiff d = false) := by
  constructor
  · simp [avg_rr_of, hsum, hlen]
  · constructor
    · intro h d hd
      by_contra hb
      obtain ⟨i, hi, hgi⟩ := List.mem_iff_getElem.mp hd
      have hmem : i ∈ validatedIdxs diffs := by
        simp only [validatedIdxs, List.mem_filter, List.mem_range]
        refine ⟨hi, ?_⟩
        rw [List.getD_eq_getElem _ _ hi, hgi]
        cases hv : validDiff d
        · exact absurd hv hb
        · rfl
      rw [h] at hmem
      simp at hmem
    · intro h
      simp only [validatedIdxs, List.filter_eq_nil_iff]
      intro i hi
      rw [List.mem_range] at hi
      have hmem : diffs.getD i 0 ∈ diffs := by
        rw [List.getD_eq_getElem _ _ hi]
        exact List.getElem_mem hi
      rw [h _ hmem]
      simp

/-- Claim C8 witness: the amended theorem applied to the difference lists
[200, 10000] and [10000, 200], which have equal sums and counts but
differently placed validated entries. -/
theorem c8_avg_rr_witness : avg_rr_of [200, 10000] = avg_rr_of [10000, 200] :=
  (c8_avg_rr_amended [200, 10000] [10000, 200] (by decide) (by decide)).1

/-- Claim C9 (confirmed): every position selected as a normal-class
candidate by the beat generator is at least blabel_padding markers into
the segment, carries the normal code itself, and has both its immediate
neighbours coded normal; hence a normal-coded candidate with a non-normal
neighbour is never emitted with the normal label. -/
theorem c9_normal_requires_normal_neighbors (blabels : List (ℤ × ℕ)) (i : ℕ)
    (h : i ∈ normalCandidatePositions blabels) :
    blabel_padding ≤ i
      ∧ (blabels.getD (i - 1) (0, 0)).2 = 1
      ∧ (blabels.getD i (0, 0)).2 = 1
      ∧ (blabels.getD (i + 1) (0, 0)).2 = 1 := by
  simp only [normalCandidatePositions, List.mem_filter] at h
  obtain ⟨hidx, hcond⟩ := h
  have hc := of_decide_eq_true hcond
  obtain ⟨hpad, hctr⟩ := beatIdxs_mem hidx
  exact ⟨hpad, by rw [hc.1, hc.2], hctr, hc.2⟩

/-- Claim C9 witness: the theorem applied to the concrete 41-marker
all-normal segment, whose single candidate position is 20. -/
theorem c9_normal_neighbors_witness :
    blabel_padding ≤ 20
      ∧ (c9_blabels.getD (20 - 1) (0, 0)).2 = 1
      ∧ (c9_blabels.getD 20 (0, 0)).2 = 1
      ∧ (c9_blabels.getD (20 + 1) (0, 0)).2 = 1 :=
  c9_normal_requires_normal_neighbors c9_blabels 20 (by decide)

/-- Claim C10 (confirmed): whenever pac (2) and pvc (4) occur equally
often and at least once among the beat labels, _get_beat_label returns
the pac-mapped label HeartBeat.pac = 1: np.argmax breaks the tie toward
the first-listed high-priority code. -/
theorem c10_beat_label_tie_pac (labels : List ℕ)
    (heq : labels.count 2 = labels.count 4) (hpos : 1 ≤ labels.count 2) :
    get_beat_label labels = some 1 := by
  have h4mem : 4 ∈ labels := List.count_pos_iff.mp (by omega)
  have hlen5 : 5 ≤ bincountLen labels lenIcentiaBeat := bincountLen_of_mem4 h4mem
  have hbl : (bincount labels lenIcentiaBeat).length = bincountLen labels lenIcentiaBeat :=
    length_bincount labels lenIcentiaBeat
  have hfi : fancyIndex (bincount labels lenIcentiaBeat) IcentiaBeat_hi_priority
      = some [labels.count 2, labels.count 4] := by
    simp only [fancyIndex, IcentiaBeat_hi_priority, List.all_cons, List.all_nil, hbl]
    rw [if_pos]
    · rw [List.map_cons, List.map_cons, List.map_nil,
        bincount_getD labels lenIcentiaBeat 2 (by omega),
        bincount_getD labels lenIcentiaBeat 4 (by omega)]
    · simp only [Bool.and_true, Bool.and_eq_true, decide_eq_true_eq]
      omega
  unfold get_beat_label
  simp only [hfi]
  rw [← heq]
  rw [argmax2]
  simp only [le_refl, if_pos, List.getD_cons_zero]
  rw [if_pos (by omega : 0 < labels.count 2)]
  rfl

/-- Claim C10 witness: the theorem applied to the labels [2, 4], one pac
and one pvc. -/
theorem c10_tie_witness : get_beat_label [2, 4] = some 1 :=
  c10_beat_label_tie_pac [2, 4] (by decide) (by decide)
